import Mathlib

/-!
# Verification of `babel-plugin-idx`

A shallow embedding of `src/packages/babel-plugin-idx/src/babel-plugin-idx.js`:
the Babel plugin that rewrites `idx(base, x => x.b.c())` calls into nested
null-guarded ternary expressions.  The embedding models:

* the Babel AST node kinds the plugin constructs and inspects (`Expr`);
* the `TransformedTernary` class, whose mutable `deepestTernary` back-reference
  (a pointer into the expression being built, used to splice each new guard
  into the previous guard's consequent slot) is modeled as the depth of the
  deepest conditional along the consequent chain from the root;
* `checkIdxArguments`, `getExpressionChainBase`, `isIdxCall`, the recursive
  `constructTernary`, and the `CallExpression` / `Program` visitors;
* a small dynamic semantics (`eval`) for the built expressions, used to settle
  the claims about evaluation order, side effects, and semantic equivalence.

Theorems about the claims appear after the definitions.
-/

namespace Idx

/-- Babel AST node kinds constructed or inspected by the plugin.  `blockStmt`
abstracts a `BlockStatement` arrow body (its statements are irrelevant to the
plugin, which only tests `t.isExpression`), and `objectPattern` abstracts a
destructuring parameter pattern. -/
inductive Expr where
  | ident (name : String)
  | nullLit
  | strLit (value : String)
  | member (object : Expr) (property : Expr) (computed : Bool)
  | call (callee : Expr) (args : List Expr)
  | assign (op : String) (target : Expr) (value : Expr)
  | binop (op : String) (left : Expr) (right : Expr)
  | cond (test : Expr) (consequent : Expr) (alternate : Expr)
  | arrow (params : List Expr) (body : Expr)
  | objectPattern
  | blockStmt
deriving Repr

mutual

/-- Structural equality of AST nodes (decidable equality is derived from it
below; the automatic deriving handler does not support the nested
`List Expr` fields). -/
def Expr.beq : Expr → Expr → Bool
  | .ident a, .ident b => a == b
  | .nullLit, .nullLit => true
  | .strLit a, .strLit b => a == b
  | .member o p c, .member o2 p2 c2 => o.beq o2 && p.beq p2 && c == c2
  | .call f a, .call f2 a2 => f.beq f2 && Expr.beqList a a2
  | .assign o t v, .assign o2 t2 v2 => o == o2 && t.beq t2 && v.beq v2
  | .binop o l r, .binop o2 l2 r2 => o == o2 && l.beq l2 && r.beq r2
  | .cond t c a, .cond t2 c2 a2 => t.beq t2 && c.beq c2 && a.beq a2
  | .arrow p b, .arrow p2 b2 => Expr.beqList p p2 && b.beq b2
  | .objectPattern, .objectPattern => true
  | .blockStmt, .blockStmt => true
  | _, _ => false

/-- Structural equality of AST node lists. -/
def Expr.beqList : List Expr → List Expr → Bool
  | [], [] => true
  | x :: xs, y :: ys => x.beq y && Expr.beqList xs ys
  | _, _ => false

end

mutual

theorem Expr.beq_iff : ∀ (x y : Expr), x.beq y = true ↔ x = y
  | .ident a, y => by cases y <;> simp [Expr.beq]
  | .nullLit, y => by cases y <;> simp [Expr.beq]
  | .strLit a, y => by cases y <;> simp [Expr.beq]
  | .member o p c, y => by
      cases y <;>
        simp [Expr.beq, Expr.beq_iff o, Expr.beq_iff p,
          and_assoc]
  | .call f a, y => by
      cases y <;>
        simp [Expr.beq, Expr.beq_iff f, Expr.beqList_iff a]
  | .assign o t v, y => by
      cases y <;>
        simp [Expr.beq, Expr.beq_iff t, Expr.beq_iff v,
          and_assoc]
  | .binop o l r, y => by
      cases y <;>
        simp [Expr.beq, Expr.beq_iff l, Expr.beq_iff r,
          and_assoc]
  | .cond t c a, y => by
      cases y <;>
        simp [Expr.beq, Expr.beq_iff t, Expr.beq_iff c,
          Expr.beq_iff a, and_assoc]
  | .arrow p b, y => by
      cases y <;>
        simp [Expr.beq, Expr.beqList_iff p, Expr.beq_iff b]
  | .objectPattern, y => by cases y <;> simp [Expr.beq]
  | .blockStmt, y => by cases y <;> simp [Expr.beq]

theorem Expr.beqList_iff : ∀ (xs ys : List Expr),
    Expr.beqList xs ys = true ↔ xs = ys
  | [], ys => by cases ys <;> simp [Expr.beqList]
  | x :: xs, ys => by
      cases ys <;>
        simp [Expr.beqList, Expr.beq_iff x, Expr.beqList_iff xs]

end

instance : DecidableEq Expr := fun x y =>
  decidable_of_iff (x.beq y = true) (Expr.beq_iff x y)

/-- Babel `t.isIdentifier`. -/
def isIdentifier : Expr → Bool
  | .ident _ => true
  | _ => false

/-- Babel `t.isArrowFunctionExpression`. -/
def isArrowFunctionExpression : Expr → Bool
  | .arrow _ _ => true
  | _ => false

/-- Babel `t.isExpression`: true of every expression node kind, false of a
block statement body and of patterns. -/
def isExpression : Expr → Bool
  | .blockStmt => false
  | .objectPattern => false
  | _ => true

/-- Replace the consequent of the conditional reached by descending `n`
consequent links from the root.  This models the source's in-place write
`this.deepestTernary.consequent = ternary`, with the aliased node pointer
represented by its consequent-chain depth. -/
def Expr.setConsequentAt : Expr → Nat → Expr → Expr
  | .cond t c a, 0, newC => .cond t newC a
  | .cond t c a, n+1, newC => .cond t (c.setConsequentAt n newC) a
  | e, _, _ => e

/-- State of the `TransformedTernary` class (lines 17–74 of the source).  The
injected `generateUid` capability is modeled as a pure name source `gen`
together with its consumption counter; `deepestTernary` is the source's
back-pointer to the most recently created conditional, represented as its
consequent-chain depth from the root of `expression` (`none` = JS `null`). -/
structure TransformedTernary where
  gen : Nat → String
  counter : Nat
  uids : List String
  expression : Expr
  deepestTernary : Option Nat
  deepestExpression : Expr

/-- The class constructor `new TransformedTernary(expression, generateUid)`. -/
def TransformedTernary.init (expression : Expr) (gen : Nat → String)
    (counter : Nat) : TransformedTernary :=
  { gen, counter, uids := [], expression, deepestTernary := none,
    deepestExpression := expression }

/-- Method `constructTernary(oldExpression, newExpression, uid)` (lines 27–37):
one guard `(uid = oldExpression) != null ? newExpression : uid`. -/
def TransformedTernary.constructTernary (oldExpression newExpression : Expr)
    (uid : String) : Expr :=
  .cond
    (.binop "!="
      (.assign "=" (.ident uid) oldExpression)
      .nullLit)
    newExpression
    (.ident uid)

/-- Method `addLevel(expression, uid)` (lines 39–52). -/
def TransformedTernary.addLevel (tt : TransformedTernary) (expression : Expr)
    (uid : String) : TransformedTernary :=
  let ternary :=
    TransformedTernary.constructTernary tt.deepestExpression expression uid
  match tt.deepestTernary with
  | none =>
      { tt with
        expression := ternary,
        deepestTernary := some 0,
        deepestExpression := expression }
  | some d =>
      { tt with
        expression := Expr.setConsequentAt tt.expression d ternary,
        deepestTernary := some (d + 1),
        deepestExpression := expression }

/-- Method `appendMethodCall(args)` (lines 54–62). -/
def TransformedTernary.appendMethodCall (tt : TransformedTernary)
    (args : List Expr) : TransformedTernary :=
  let uid := tt.gen tt.counter
  let callExpression := Expr.call (.ident uid) args
  let tt1 := { tt with counter := tt.counter + 1 }
  let tt2 := tt1.addLevel callExpression uid
  { tt2 with uids := tt2.uids ++ [uid] }

/-- Method `appendPropertyAccess(property, computed)` (lines 64–73). -/
def TransformedTernary.appendPropertyAccess (tt : TransformedTernary)
    (property : Expr) (computed : Bool) : TransformedTernary :=
  let uid := tt.gen tt.counter
  let accessedProperty := Expr.member (.ident uid) property computed
  let tt1 := { tt with counter := tt.counter + 1 }
  let tt2 := tt1.addLevel accessedProperty uid
  { tt2 with uids := tt2.uids ++ [uid] }

/-- Function `getExpressionChainBase(node)` (lines 116–124). -/
def getExpressionChainBase : Expr → Expr
  | .call callee _ => getExpressionChainBase callee
  | .member object _ _ => getExpressionChainBase object
  | node => node

/-- The validation errors thrown by `checkIdxArguments` via
`file.buildCodeFrameError` (each constructor corresponds to one of the five
`throw` sites, lines 78–113). -/
inductive Err where
  | arity
  | notArrow
  | blockBody
  | paramCount
  | paramMismatch
deriving DecidableEq, Repr

/-- Function `checkIdxArguments(file, node)` (lines 76–114), with the thrown
errors modeled as `Except` errors.  `node.arguments` of a non-call node is
modeled as the empty list (the function is only ever invoked on calls). -/
def checkIdxArguments (node : Expr) : Except Err Unit :=
  let args : List Expr := match node with
    | .call _ a => a
    | _ => []
  if args.length ≠ 2 then .error .arity
  else
    let arrowFunction := args.getD 1 .nullLit
    match arrowFunction with
    | .arrow params body =>
        if !isExpression body then .error .blockBody
        else if params.length ≠ 1 then .error .paramCount
        else
          let bodyChainBase := getExpressionChainBase body
          match params.getD 0 .nullLit, bodyChainBase with
          | .ident p, .ident b =>
              if p ≠ b then .error .paramMismatch else .ok ()
          | _, _ => .error .paramMismatch
    | _ => .error .notArrow

/-- Function `isIdxCall(node)` (lines 126–132). -/
def isIdxCall : Expr → Bool
  | .call (.ident nm) _ => nm = "idx"
  | _ => false

/-- Function `constructTernary(base, node, generateUid)` (lines 134–154): the
recursive chain decomposition driving the builder. -/
def constructTernary (base : Expr) (node : Expr) (gen : Nat → String)
    (counter : Nat) : TransformedTernary :=
  match node with
  | .call callee args =>
      (constructTernary base callee gen counter).appendMethodCall args
  | .member object property computed =>
      (constructTernary base object gen counter).appendPropertyAccess
        property computed
  | _ => TransformedTernary.init base gen counter

/-- The `idxVisitor.CallExpression` handler (lines 156–172).  The two tree
mutations — `path.replaceWith(ternary.expression)` and the `scope.push` of
each uid — are modeled by the returned replacement expression and uid list;
a thrown validation error aborts before either is produced, exactly as the
source throws before building.  On a non-`idx` call the handler does nothing
(the node is returned unchanged with no bindings). -/
def callExpressionVisitor (gen : Nat → String) (counter : Nat) (node : Expr) :
    Except Err (Expr × Nat × List String) :=
  if isIdxCall node then
    match checkIdxArguments node with
    | .error e => .error e
    | .ok _ =>
        match node with
        | .call _ [arg0, .arrow _ body] =>
            let ternary := constructTernary arg0 body gen counter
            .ok (ternary.expression, ternary.counter, ternary.uids)
        | _ => .error .arity
  else .ok (node, counter, [])

/-! ## The link sequence and the pure fold form of the builder

`constructTernary` walks the lambda body and appends one level per
member/call node, base-first.  `links` materializes that walk as a list, and
`buildExpr` is the right-nested guard chain built from it in one pass.  The
characterization theorem below proves the class-based builder (with its
mutable splice point) produces exactly `buildExpr`; all structural and
semantic claims are then settled by induction on the link list. -/

/-- One chain link, in the order the `constructTernary` recursion appends
levels (base-first). -/
inductive Link where
  | propAccess (property : Expr) (computed : Bool)
  | methodCall (args : List Expr)
deriving Repr

/-- The link sequence of a lambda body, base-first. -/
def links : Expr → List Link
  | .call callee args => links callee ++ [.methodCall args]
  | .member object property computed =>
      links object ++ [.propAccess property computed]
  | _ => []

/-- The value expression a link materializes on its fresh temporary: a member
access on the temporary, or a call with the temporary as callee. -/
def Link.val : Link → String → Expr
  | .propAccess p comp, uid => .member (.ident uid) p comp
  | .methodCall args, uid => .call (.ident uid) args

/-- The right-nested guard chain for a link list, built bottom-up in one
recursive pass (no mutable splice point). -/
def buildExpr (gen : Nat → String) : Expr → Nat → List Link → Expr
  | b, _, [] => b
  | b, c, l :: ls =>
      .cond (.binop "!=" (.assign "=" (.ident (gen c)) b) .nullLit)
        (buildExpr gen (l.val (gen c)) (c + 1) ls)
        (.ident (gen c))

/-- The unguarded value expression of the deepest appended link (the final
value of the class field `deepestExpression`). -/
def deepVal (gen : Nat → String) : Expr → Nat → List Link → Expr
  | b, _, [] => b
  | _, c, l :: ls => deepVal gen (l.val (gen c)) (c + 1) ls

/-- The names minted for `n` consecutive links starting at counter `c`. -/
def genNames (gen : Nat → String) (c : Nat) (n : Nat) : List String :=
  (List.range n).map fun i => gen (c + i)

/-- Dispatch one link to the corresponding append method. -/
def processLink (tt : TransformedTernary) : Link → TransformedTernary
  | .propAccess p comp => tt.appendPropertyAccess p comp
  | .methodCall args => tt.appendMethodCall args

theorem constructTernary_eq_foldl : ∀ (node base : Expr) (gen : Nat → String)
    (c : Nat), constructTernary base node gen c =
      (links node).foldl processLink (TransformedTernary.init base gen c)
  | .call callee args, base, gen, c => by
      rw [constructTernary, links, constructTernary_eq_foldl callee,
        List.foldl_append]
      rfl
  | .member o p comp, base, gen, c => by
      rw [constructTernary, links, constructTernary_eq_foldl o,
        List.foldl_append]
      rfl
  | .ident _, _, _, _ => rfl
  | .nullLit, _, _, _ => rfl
  | .strLit _, _, _, _ => rfl
  | .assign _ _ _, _, _, _ => rfl
  | .binop _ _ _, _, _, _ => rfl
  | .cond _ _ _, _, _, _ => rfl
  | .arrow _ _, _, _, _ => rfl
  | .objectPattern, _, _, _ => rfl
  | .blockStmt, _, _, _ => rfl

theorem genNames_succ (gen : Nat → String) (c n : Nat) :
    genNames gen c (n + 1) = genNames gen c n ++ [gen (c + n)] := by
  simp [genNames, List.range_succ]

/-- Splicing a new guard into the deepest consequent slot of a nonempty guard
chain extends the chain by one link. -/
theorem setConsequentAt_buildExpr (gen : Nat → String) : ∀ (ls : List Link)
    (b : Expr) (c : Nat) (l : Link), ls ≠ [] →
    Expr.setConsequentAt (buildExpr gen b c ls) (ls.length - 1)
      (TransformedTernary.constructTernary (deepVal gen b c ls)
        (Link.val l (gen (c + ls.length))) (gen (c + ls.length)))
      = buildExpr gen b c (ls ++ [l])
  | [], _, _, _, h => absurd rfl h
  | [l0], b, c, l, _ => by
      simp [buildExpr, deepVal, Expr.setConsequentAt,
        TransformedTernary.constructTernary]
  | l0 :: l1 :: ls, b, c, l, _ => by
      have ih := setConsequentAt_buildExpr gen (l1 :: ls) (Link.val l0 (gen c))
        (c + 1) l (by simp)
      simp only [List.length_cons, Nat.add_sub_cancel] at ih
      rw [show c + 1 + (ls.length + 1) = c + (ls.length + 1 + 1) by omega]
        at ih
      rw [buildExpr, deepVal]
      simp only [List.length_cons, Nat.add_sub_cancel, List.cons_append]
      rw [Expr.setConsequentAt]
      rw [ih]
      rfl

theorem deepVal_append_singleton (gen : Nat → String) : ∀ (ls : List Link)
    (b : Expr) (c : Nat) (l : Link),
    deepVal gen b c (ls ++ [l]) = Link.val l (gen (c + ls.length))
  | [], b, c, l => by simp [deepVal]
  | l0 :: ls, b, c, l => by
      rw [List.cons_append, deepVal, deepVal_append_singleton gen ls]
      simp only [List.length_cons]
      rw [Nat.add_comm ls.length 1, ← Nat.add_assoc]

/-- The builder state reached after appending a link list to a fresh
`TransformedTernary`, in closed form. -/
def charState (gen : Nat → String) (base : Expr) (c : Nat)
    (ls : List Link) : TransformedTernary :=
  { gen := gen,
    counter := c + ls.length,
    uids := genNames gen c ls.length,
    expression := buildExpr gen base c ls,
    deepestTernary :=
      if ls.length = 0 then none else some (ls.length - 1),
    deepestExpression := deepVal gen base c ls }

theorem processLink_charState (gen : Nat → String) (base : Expr) (c : Nat)
    (ls : List Link) (l : Link) :
    processLink (charState gen base c ls) l =
      charState gen base c (ls ++ [l]) := by
  have hdv := deepVal_append_singleton gen ls base c l
  have hgn := genNames_succ gen c ls.length
  cases ls with
  | nil =>
      cases l <;>
        simp [processLink, TransformedTernary.appendMethodCall,
          TransformedTernary.appendPropertyAccess, TransformedTernary.addLevel,
          TransformedTernary.constructTernary, charState, buildExpr, deepVal,
          genNames, Link.val, List.range_succ]
  | cons l0 ls0 =>
      have hkey := setConsequentAt_buildExpr gen (l0 :: ls0) base c l
        (by simp)
      simp only [List.length_cons, Nat.add_sub_cancel] at hkey hdv hgn
      cases l <;>
        simp only [Link.val] at hkey hdv <;>
        simp only [processLink, TransformedTernary.appendMethodCall,
          TransformedTernary.appendPropertyAccess,
          TransformedTernary.addLevel, charState, List.length_cons,
          List.length_append, List.length_singleton, List.length_nil,
          Nat.add_sub_cancel, Link.val] <;>
        simp [hkey, hgn, Nat.add_assoc] <;>
        exact hdv.symm

/-- Full characterization of the builder state after folding a link list from
a fresh `TransformedTernary`. -/
theorem foldl_processLink_char (gen : Nat → String) (ls : List Link)
    (base : Expr) (c : Nat) :
    ls.foldl processLink (TransformedTernary.init base gen c) =
      charState gen base c ls := by
  induction ls using List.reverseRecOn with
  | nil => simp [TransformedTernary.init, charState, genNames, buildExpr,
      deepVal]
  | append_singleton ls l ih =>
      rw [List.foldl_append, ih]
      simp only [List.foldl_cons, List.foldl_nil]
      exact processLink_charState gen base c ls l

/-- The central refinement: the class-based builder with its mutable splice
point computes exactly the pure bottom-up fold over the link sequence. -/
theorem constructTernary_char (base node : Expr) (gen : Nat → String)
    (c : Nat) : constructTernary base node gen c =
      charState gen base c (links node) := by
  rw [constructTernary_eq_foldl, foldl_processLink_char]

/-! ## Counting functions over the AST -/

/-- The number of links in a lambda body's chain (the chain length `N`). -/
def chainLength : Expr → Nat
  | .call callee _ => chainLength callee + 1
  | .member object _ _ => chainLength object + 1
  | _ => 0

theorem chainLength_eq_links_length : ∀ e : Expr,
    chainLength e = (links e).length
  | .call callee _ => by
      rw [chainLength, links, chainLength_eq_links_length callee]; simp
  | .member o _ _ => by
      rw [chainLength, links, chainLength_eq_links_length o]; simp
  | .ident _ => rfl
  | .nullLit => rfl
  | .strLit _ => rfl
  | .assign _ _ _ => rfl
  | .binop _ _ _ => rfl
  | .cond _ _ _ => rfl
  | .arrow _ _ => rfl
  | .objectPattern => rfl
  | .blockStmt => rfl

mutual

/-- Number of `Identifier` nodes with the given name in an expression. -/
def countIdent (nm : String) : Expr → Nat
  | .ident n => if n = nm then 1 else 0
  | .nullLit => 0
  | .strLit _ => 0
  | .member o p _ => countIdent nm o + countIdent nm p
  | .call f args => countIdent nm f + countIdentList nm args
  | .assign _ t v => countIdent nm t + countIdent nm v
  | .binop _ l r => countIdent nm l + countIdent nm r
  | .cond t c a => countIdent nm t + countIdent nm c + countIdent nm a
  | .arrow params b => countIdentList nm params + countIdent nm b
  | .objectPattern => 0
  | .blockStmt => 0

/-- Number of `Identifier` nodes with the given name in an expression list. -/
def countIdentList (nm : String) : List Expr → Nat
  | [] => 0
  | e :: es => countIdent nm e + countIdentList nm es

end

mutual

/-- Number of `ConditionalExpression` nodes in an expression. -/
def condCount : Expr → Nat
  | .ident _ => 0
  | .nullLit => 0
  | .strLit _ => 0
  | .member o p _ => condCount o + condCount p
  | .call f args => condCount f + condCountList args
  | .assign _ t v => condCount t + condCount v
  | .binop _ l r => condCount l + condCount r
  | .cond t c a => 1 + condCount t + condCount c + condCount a
  | .arrow params b => condCountList params + condCount b
  | .objectPattern => 0
  | .blockStmt => 0

/-- Number of `ConditionalExpression` nodes in an expression list. -/
def condCountList : List Expr → Nat
  | [] => 0
  | e :: es => condCount e + condCountList es

end

mutual

/-- Number of occurrences of `x` as a subterm of an expression (a structural
stand-in for Babel's node identity: in the source every AST node object
occurs at most once in a tree). -/
def countSub (x : Expr) : Expr → Nat
  | .ident n => if Expr.ident n = x then 1 else 0
  | .nullLit => if Expr.nullLit = x then 1 else 0
  | .strLit s => if Expr.strLit s = x then 1 else 0
  | .member o p comp =>
      (if Expr.member o p comp = x then 1 else 0) + countSub x o + countSub x p
  | .call f args =>
      (if Expr.call f args = x then 1 else 0) + countSub x f
        + countSubList x args
  | .assign op t v =>
      (if Expr.assign op t v = x then 1 else 0) + countSub x t + countSub x v
  | .binop op l r =>
      (if Expr.binop op l r = x then 1 else 0) + countSub x l + countSub x r
  | .cond t c a =>
      (if Expr.cond t c a = x then 1 else 0) + countSub x t + countSub x c
        + countSub x a
  | .arrow params b =>
      (if Expr.arrow params b = x then 1 else 0) + countSubList x params
        + countSub x b
  | .objectPattern => if Expr.objectPattern = x then 1 else 0
  | .blockStmt => if Expr.blockStmt = x then 1 else 0

/-- Number of occurrences of `x` as a subterm of an expression list. -/
def countSubList (x : Expr) : List Expr → Nat
  | [] => 0
  | e :: es => countSub x e + countSubList x es

end

/-- Occurrences of the named identifier within a link's payload (the property
expression, or the call arguments — the parts of the original chain carried
unchanged into the output). -/
def countIdentLink (nm : String) : Link → Nat
  | .propAccess p _ => countIdent nm p
  | .methodCall args => countIdentList nm args

/-- Conditional expressions within a link's payload. -/
def condCountLink : Link → Nat
  | .propAccess p _ => condCount p
  | .methodCall args => condCountList args

/-- Conditional expressions within all payloads of a link list. -/
def condCountLinks (ls : List Link) : Nat := (ls.map condCountLink).sum

/-- Occurrences of `x` as a subterm within a link's payload. -/
def countSubLink (x : Expr) : Link → Nat
  | .propAccess p _ => countSub x p
  | .methodCall args => countSubList x args

/-- Occurrences of `x` as a subterm within all payloads of a link list. -/
def countSubLinks (x : Expr) (ls : List Link) : Nat :=
  (ls.map (countSubLink x)).sum

/-! ## Structural lemmas about the built guard chain -/

theorem condCount_linkVal (l : Link) (uid : String) :
    condCount (l.val uid) = condCountLink l := by
  cases l <;> simp [Link.val, condCount, condCountLink]

/-- Exact conditional count of the built chain: one guard per link, plus
whatever conditionals the base and the link payloads already contained. -/
theorem condCount_buildExpr (gen : Nat → String) : ∀ (ls : List Link)
    (b : Expr) (c : Nat),
    condCount (buildExpr gen b c ls) =
      condCount b + condCountLinks ls + ls.length
  | [], b, c => by simp [buildExpr, condCountLinks]
  | l :: ls, b, c => by
      rw [buildExpr]
      simp only [condCount, condCount_buildExpr gen ls, condCount_linkVal,
        condCountLinks, List.map_cons, List.sum_cons, List.length_cons]
      omega

/-- Per-link contribution to the identifier count of the built chain: three
occurrences of each minted temporary (assignment target, fallback read, and
subject of the link's value expression) plus payload occurrences. -/
def identWeight (gen : Nat → String) (u : String) : Nat → List Link → Nat
  | _, [] => 0
  | c, l :: ls =>
      (if gen c = u then 3 else 0) + countIdentLink u l
        + identWeight gen u (c + 1) ls

theorem countIdent_linkVal (u : String) (l : Link) (uid : String) :
    countIdent u (l.val uid) =
      (if uid = u then 1 else 0) + countIdentLink u l := by
  cases l <;> simp [Link.val, countIdent, countIdentLink]

/-- Exact identifier count of the built chain. -/
theorem countIdent_buildExpr (gen : Nat → String) (u : String) :
    ∀ (ls : List Link) (b : Expr) (c : Nat),
    countIdent u (buildExpr gen b c ls) =
      countIdent u b + identWeight gen u c ls
  | [], b, c => by simp [buildExpr, identWeight]
  | l :: ls, b, c => by
      rw [buildExpr]
      simp only [countIdent, countIdent_buildExpr gen u ls,
        countIdent_linkVal, identWeight]
      by_cases h : gen c = u <;> simp [h] <;> omega

theorem identWeight_eq_zero (gen : Nat → String) (u : String) :
    ∀ (ls : List Link) (c : Nat),
    (∀ k, c ≤ k → k < c + ls.length → gen k ≠ u) →
    (∀ l ∈ ls, countIdentLink u l = 0) →
    identWeight gen u c ls = 0
  | [], _, _, _ => rfl
  | l :: ls, c, hk, hpay => by
      rw [identWeight]
      rw [if_neg (hk c (Nat.le_refl c) (by simp))]
      rw [hpay l (by simp)]
      rw [identWeight_eq_zero gen u ls (c + 1)
        (fun k h1 h2 => hk k (by omega) (by simp at h2 ⊢; omega))
        (fun l2 h2 => hpay l2 (by simp [h2]))]

theorem identWeight_eq_three (gen : Nat → String)
    (hinj : Function.Injective gen) : ∀ (ls : List Link) (c j : Nat),
    c ≤ j → j < c + ls.length →
    (∀ l ∈ ls, countIdentLink (gen j) l = 0) →
    identWeight gen (gen j) c ls = 3
  | [], c, j, h1, h2, _ => by simp at h2; omega
  | l :: ls, c, j, h1, h2, hpay => by
      rw [identWeight]
      rcases Nat.eq_or_lt_of_le h1 with hcj | hcj
      · subst hcj
        rw [if_pos rfl, hpay l (by simp)]
        rw [identWeight_eq_zero gen (gen c) ls (c + 1)
          (fun k hk1 _ he => by have := hinj he; omega)
          (fun l2 hl2 => hpay l2 (by simp [hl2]))]
      · rw [if_neg (fun he => by have := hinj he; omega)]
        rw [hpay l (by simp)]
        rw [identWeight_eq_three gen hinj ls (c + 1) j (by omega)
          (by simp at h2 ⊢; omega)
          (fun l2 hl2 => hpay l2 (by simp [hl2]))]

mutual

theorem countSub_eq_zero_of_size : ∀ (x e : Expr),
    sizeOf e < sizeOf x → countSub x e = 0
  | x, .ident n, h => by
      rw [countSub, if_neg (fun he => by rw [← he] at h; omega)]
  | x, .nullLit, h => by
      rw [countSub, if_neg (fun he => by rw [← he] at h; omega)]
  | x, .strLit s, h => by
      rw [countSub, if_neg (fun he => by rw [← he] at h; omega)]
  | x, .member o p comp, h => by
      rw [countSub, if_neg (fun he => by rw [← he] at h; omega),
        countSub_eq_zero_of_size x o (by simp at h ⊢; try omega),
        countSub_eq_zero_of_size x p (by simp at h ⊢; try omega)]
  | x, .call f args, h => by
      rw [countSub, if_neg (fun he => by rw [← he] at h; omega),
        countSub_eq_zero_of_size x f (by simp at h ⊢; try omega),
        countSubList_eq_zero_of_size x args (by simp at h ⊢; try omega)]
  | x, .assign op t v, h => by
      rw [countSub, if_neg (fun he => by rw [← he] at h; omega),
        countSub_eq_zero_of_size x t (by simp at h ⊢; try omega),
        countSub_eq_zero_of_size x v (by simp at h ⊢; try omega)]
  | x, .binop op l r, h => by
      rw [countSub, if_neg (fun he => by rw [← he] at h; omega),
        countSub_eq_zero_of_size x l (by simp at h ⊢; try omega),
        countSub_eq_zero_of_size x r (by simp at h ⊢; try omega)]
  | x, .cond t c a, h => by
      rw [countSub, if_neg (fun he => by rw [← he] at h; omega),
        countSub_eq_zero_of_size x t (by simp at h ⊢; try omega),
        countSub_eq_zero_of_size x c (by simp at h ⊢; try omega),
        countSub_eq_zero_of_size x a (by simp at h ⊢; try omega)]
  | x, .arrow params b, h => by
      rw [countSub, if_neg (fun he => by rw [← he] at h; omega),
        countSubList_eq_zero_of_size x params (by simp at h ⊢; try omega),
        countSub_eq_zero_of_size x b (by simp at h ⊢; try omega)]
  | x, .objectPattern, h => by
      rw [countSub, if_neg (fun he => by rw [← he] at h; omega)]
  | x, .blockStmt, h => by
      rw [countSub, if_neg (fun he => by rw [← he] at h; omega)]

theorem countSubList_eq_zero_of_size : ∀ (x : Expr) (es : List Expr),
    sizeOf es < sizeOf x → countSubList x es = 0
  | _, [], _ => rfl
  | x, e :: es, h => by
      rw [countSubList,
        countSub_eq_zero_of_size x e (by simp at h ⊢; try omega),
        countSubList_eq_zero_of_size x es (by simp at h ⊢; try omega)]

end

/-- An expression occurs in itself exactly once (its strict subterms are all
smaller, so none can equal it). -/
theorem countSub_self : ∀ x : Expr, countSub x x = 1
  | .ident n => by rw [countSub, if_pos rfl]
  | .nullLit => by rw [countSub, if_pos rfl]
  | .strLit s => by rw [countSub, if_pos rfl]
  | .member o p comp => by
      rw [countSub, if_pos rfl,
        countSub_eq_zero_of_size _ o (by simp; try omega),
        countSub_eq_zero_of_size _ p (by simp; try omega)]
  | .call f args => by
      rw [countSub, if_pos rfl,
        countSub_eq_zero_of_size _ f (by simp; try omega),
        countSubList_eq_zero_of_size _ args (by simp; try omega)]
  | .assign op t v => by
      rw [countSub, if_pos rfl,
        countSub_eq_zero_of_size _ t (by simp; try omega),
        countSub_eq_zero_of_size _ v (by simp; try omega)]
  | .binop op l r => by
      rw [countSub, if_pos rfl,
        countSub_eq_zero_of_size _ l (by simp; try omega),
        countSub_eq_zero_of_size _ r (by simp; try omega)]
  | .cond t c a => by
      rw [countSub, if_pos rfl,
        countSub_eq_zero_of_size _ t (by simp; try omega),
        countSub_eq_zero_of_size _ c (by simp; try omega),
        countSub_eq_zero_of_size _ a (by simp; try omega)]
  | .arrow params b => by
      rw [countSub, if_pos rfl,
        countSubList_eq_zero_of_size _ params (by simp; try omega),
        countSub_eq_zero_of_size _ b (by simp; try omega)]
  | .objectPattern => by rw [countSub, if_pos rfl]
  | .blockStmt => by rw [countSub, if_pos rfl]

theorem countSub_linkVal (x : Expr) (l : Link) (uid : String) :
    countSub x (l.val uid) =
      (if l.val uid = x then 1 else 0)
        + (if Expr.ident uid = x then 1 else 0) + countSubLink x l := by
  cases l <;> simp [Link.val, countSub, countSubLink] <;> omega

/-- Occurrence counts of original-program subterms are preserved exactly by
guard construction: every node the builder adds contains a minted identifier
(or is the null literal), so under the freshness side conditions none of
them can equal a node of the original program, and `x` occurs in the output
exactly as often as in the base plus the link payloads. -/
theorem countSub_buildExpr (gen : Nat → String) (x : Expr)
    (hx : ∀ n, countIdent (gen n) x = 0) (hnull : x ≠ Expr.nullLit) :
    ∀ (ls : List Link) (b : Expr) (c : Nat),
    countSub x (buildExpr gen b c ls) = countSub x b + countSubLinks x ls
  | [], b, c => by simp [buildExpr, countSubLinks]
  | l :: ls, b, c => by
      have hne : ∀ y : Expr, 1 ≤ countIdent (gen c) y → y ≠ x := by
        intro y hy he
        rw [he, hx c] at hy
        omega
      have hval : 1 ≤ countIdent (gen c) (l.val (gen c)) := by
        cases l <;> simp [Link.val, countIdent, countIdentList]
      have hxnull : Expr.nullLit ≠ x := fun he => hnull he.symm
      have hident : Expr.ident (gen c) ≠ x :=
        hne (Expr.ident (gen c)) (by simp [countIdent])
      have hassign : Expr.assign "=" (.ident (gen c)) b ≠ x :=
        hne (Expr.assign "=" (.ident (gen c)) b) (by simp [countIdent])
      have hbinop :
          Expr.binop "!=" (.assign "=" (.ident (gen c)) b) .nullLit ≠ x :=
        hne (Expr.binop "!=" (.assign "=" (.ident (gen c)) b) .nullLit)
          (by simp [countIdent])
      have hcondx :
          Expr.cond (.binop "!=" (.assign "=" (.ident (gen c)) b) .nullLit)
            (buildExpr gen (l.val (gen c)) (c + 1) ls)
            (.ident (gen c)) ≠ x :=
        hne (Expr.cond (.binop "!=" (.assign "=" (.ident (gen c)) b) .nullLit)
            (buildExpr gen (l.val (gen c)) (c + 1) ls)
            (.ident (gen c))) (by simp [countIdent])
      have hlinkval : l.val (gen c) ≠ x := hne _ hval
      rw [buildExpr]
      simp only [countSub]
      rw [countSub_buildExpr gen x hx hnull ls (l.val (gen c)) (c + 1)]
      rw [countSub_linkVal]
      simp only [if_neg hcondx, if_neg hbinop, if_neg hassign,
        if_neg hident, if_neg hxnull, if_neg hlinkval]
      simp only [countSubLinks, List.map_cons, List.sum_cons]
      omega

/-- Decides that the first `n` levels of the consequent spine are loose-null
guards: conditionals testing an assignment to an identifier with the loose
inequality operator `!=` against a null literal (never the strict `!==`). -/
def looseGuardSpine : Nat → Expr → Bool
  | 0, _ => true
  | n + 1, .cond (.binop "!=" (.assign "=" (.ident _) _) .nullLit) k _ =>
      looseGuardSpine n k
  | _ + 1, _ => false

theorem looseGuardSpine_buildExpr (gen : Nat → String) : ∀ (ls : List Link)
    (b : Expr) (c : Nat),
    looseGuardSpine ls.length (buildExpr gen b c ls) = true
  | [], b, c => rfl
  | l :: ls, b, c => by
      rw [buildExpr]
      simp only [List.length_cons]
      rw [looseGuardSpine]
      exact looseGuardSpine_buildExpr gen ls (l.val (gen c)) (c + 1)

/-! ## A small dynamic semantics for the built expressions

The transform is a syntax-to-syntax rewrite; to settle the claims about
evaluation order, side effects, and semantic equivalence we give the emitted
expression fragment a big-step semantics.  Runtime values include an oracle
function value `vfun ret fx` — calling it emits the effect trace `fx` and
returns `ret` — so that method calls with arbitrary effects are modeled
without interpreting function bodies.  Evaluation returns the value, the
updated variable environment (assignments to the minted temporaries), and the
trace of observable events (property accesses, calls, assignments), or `none`
for a runtime error. -/

/-- Observable events of one evaluation. -/
inductive Ev where
  | access (key : String)
  | callEv
  | assignEv (name : String)
deriving DecidableEq, Repr

/-- Runtime values.  `vfun ret fx`: an opaque function that, when invoked,
emits the trace `fx` and returns `ret`. -/
inductive Val where
  | vnull
  | vundefined
  | vbool (b : Bool)
  | vstr (s : String)
  | vobj (fields : List (String × Val))
  | vfun (ret : Val) (fx : List Ev)
deriving Repr

/-- Variable environments. -/
def Env := List (String × Val)

/-- Read a variable (JS would throw on a truly unbound name; the minted
temporaries are always declared, and we default to `undefined`). -/
def lookup : Env → String → Val
  | [], _ => .vundefined
  | (k, v) :: rest, nm => if k = nm then v else lookup rest nm

/-- Write a variable. -/
def update : Env → String → Val → Env
  | [], nm, v => [(nm, v)]
  | (k, w) :: rest, nm, v =>
      if k = nm then (nm, v) :: rest else (k, w) :: update rest nm v

theorem lookup_update_self : ∀ (σ : Env) (nm : String) (v : Val),
    lookup (update σ nm v) nm = v
  | [], nm, v => by simp [update, lookup]
  | (k, w) :: rest, nm, v => by
      by_cases h : k = nm <;>
        simp [update, lookup, h, lookup_update_self rest nm v]

/-- The nullish test: JS `x == null` is true exactly for `null` and
`undefined`. -/
def isNullish : Val → Bool
  | .vnull => true
  | .vundefined => true
  | _ => false

/-- Loose equality, restricted to the fragment the emitted code exercises
(comparison against the null literal); object comparison is by-reference in
JS and is not modeled, which is sound here because the transform only ever
compares against `null`. -/
def looseEq : Val → Val → Bool
  | .vnull, b => isNullish b
  | .vundefined, b => isNullish b
  | .vbool x, .vbool y => x == y
  | .vstr x, .vstr y => x == y
  | _, _ => false

theorem looseEq_vnull : ∀ v : Val, looseEq v .vnull = isNullish v := by
  intro v
  cases v <;> rfl

/-- JS truthiness of the modeled values. -/
def truthy : Val → Bool
  | .vbool b => b
  | .vnull => false
  | .vundefined => false
  | .vstr s => !(s == "")
  | .vobj _ => true
  | .vfun _ _ => true

/-- First matching field, or `undefined` for a missing property. -/
def getField : List (String × Val) → String → Val
  | [], _ => .vundefined
  | (k, v) :: rest, nm => if k = nm then v else getField rest nm

/-- Property read on a value: throws (`none`) on nullish subjects, reads the
field of an object, and yields `undefined` on other primitives. -/
def memberLookup : Val → String → Option Val
  | .vnull, _ => none
  | .vundefined, _ => none
  | .vobj fields, k => some (getField fields k)
  | _, _ => some .vundefined

/-- Computed property keys must evaluate to strings in this model. -/
def asKey : Val → Option String
  | .vstr s => some s
  | _ => none

mutual

/-- Big-step evaluation: value, updated environment, and event trace, or
`none` for a runtime error.  Arrow literals are not given closure semantics
(function values enter only as oracle `vfun` inputs), and only the operators
the transform emits (`=`, `!=`, `==`) are interpreted. -/
def eval (σ : Env) : Expr → Option (Val × Env × List Ev)
  | .ident nm => some (lookup σ nm, σ, [])
  | .nullLit => some (.vnull, σ, [])
  | .strLit s => some (.vstr s, σ, [])
  | .member o p comp =>
      match eval σ o with
      | none => none
      | some (vo, σ1, tr1) =>
        if comp then
          match eval σ1 p with
          | none => none
          | some (vp, σ2, tr2) =>
            match asKey vp with
            | none => none
            | some k =>
              match memberLookup vo k with
              | none => none
              | some v => some (v, σ2, tr1 ++ tr2 ++ [.access k])
        else
          match p with
          | .ident k =>
            match memberLookup vo k with
            | none => none
            | some v => some (v, σ1, tr1 ++ [.access k])
          | _ => none
  | .call f args =>
      match eval σ f with
      | none => none
      | some (vf, σ1, tr1) =>
        match evalList σ1 args with
        | none => none
        | some (_, σ2, tr2) =>
          match vf with
          | .vfun ret fx => some (ret, σ2, tr1 ++ tr2 ++ [.callEv] ++ fx)
          | _ => none
  | .assign op tgt v =>
      match op, tgt with
      | "=", .ident nm =>
        match eval σ v with
        | none => none
        | some (vv, σ1, tr1) =>
            some (vv, update σ1 nm vv, tr1 ++ [.assignEv nm])
      | _, _ => none
  | .binop op lhs rhs =>
      match eval σ lhs with
      | none => none
      | some (vl, σ1, tr1) =>
        match eval σ1 rhs with
        | none => none
        | some (vr, σ2, tr2) =>
          match op with
          | "!=" => some (.vbool (!looseEq vl vr), σ2, tr1 ++ tr2)
          | "==" => some (.vbool (looseEq vl vr), σ2, tr1 ++ tr2)
          | _ => none
  | .cond t k a =>
      match eval σ t with
      | none => none
      | some (vt, σ1, tr1) =>
        if truthy vt then
          match eval σ1 k with
          | none => none
          | some (vk, σ2, tr2) => some (vk, σ2, tr1 ++ tr2)
        else
          match eval σ1 a with
          | none => none
          | some (va, σ2, tr2) => some (va, σ2, tr1 ++ tr2)
  | .arrow _ _ => none
  | .objectPattern => none
  | .blockStmt => none

/-- Left-to-right evaluation of an argument list. -/
def evalList (σ : Env) : List Expr → Option (List Val × Env × List Ev)
  | [] => some ([], σ, [])
  | e :: es =>
      match eval σ e with
      | none => none
      | some (v, σ1, tr1) =>
        match evalList σ1 es with
        | none => none
        | some (vs, σ2, tr2) => some (v :: vs, σ2, tr1 ++ tr2)

end

/-- Reference execution of the guarded chain: starting from the base value,
each link in order assigns the current value to its minted temporary, stops
if that value is nullish, and otherwise evaluates the link's value expression
on the temporary; the traces of the executed links are concatenated in link
order. -/
def runLinksE (gen : Nat → String) : Env → Val → Nat → List Link →
    Option (Val × Env × List Ev)
  | σ, v, _, [] => some (v, σ, [])
  | σ, v, c, l :: ls =>
      let t := gen c
      let σ1 := update σ t v
      if isNullish v then some (v, σ1, [.assignEv t])
      else
        match eval σ1 (l.val t) with
        | none => none
        | some (v1, σ2, tr1) =>
          match runLinksE gen σ2 v1 (c + 1) ls with
          | none => none
          | some (v2, σ3, tr2) => some (v2, σ3, .assignEv t :: (tr1 ++ tr2))

/-- Evaluation-order characterization of the built chain: the base is
evaluated first (exactly once — its trace is emitted once, as a prefix), and
then the links run left-to-right, each at most once, stopping at the first
nullish value. -/
theorem eval_buildExpr (gen : Nat → String) : ∀ (ls : List Link) (b : Expr)
    (c : Nat) (σ : Env),
    eval σ (buildExpr gen b c ls) =
      match eval σ b with
      | none => none
      | some (vb, σ1, trB) =>
        match runLinksE gen σ1 vb c ls with
        | none => none
        | some (v, σ2, tr) => some (v, σ2, trB ++ tr)
  | [], b, c, σ => by
      rw [buildExpr]
      cases h : eval σ b with
      | none => simp
      | some r =>
          obtain ⟨vb, σ1, trB⟩ := r
          simp [runLinksE]
  | l :: ls, b, c, σ => by
      rw [buildExpr]
      cases h : eval σ b with
      | none => simp [eval, h]
      | some r =>
          obtain ⟨vb, σ1, trB⟩ := r
          simp only [eval, h]
          simp only [truthy, looseEq_vnull]
          by_cases hn : isNullish vb
          · simp [hn, runLinksE, lookup_update_self, eval]
          · simp only [hn, Bool.not_false, if_true, if_false, reduceIte,
              Bool.false_eq_true]
            rw [eval_buildExpr gen ls (l.val (gen c)) (c + 1)
              (update σ1 (gen c) vb)]
            simp only [runLinksE, hn, Bool.false_eq_true, if_false,
              reduceIte]
            cases h1 : eval (update σ1 (gen c) vb) (l.val (gen c)) with
            | none => simp
            | some r1 =>
                obtain ⟨v1, σ2, tr1⟩ := r1
                cases h2 : runLinksE gen σ2 v1 (c + 1) ls with
                | none => simp [h2]
                | some r2 =>
                    obtain ⟨v2, σ3, tr2⟩ := r2
                    simp [h2]

/-! ## Unit-level traversal and the pre-filter

`idxVisitor` is applied by `path.traverse` to every `CallExpression` in the
program.  `transformExpr` models one traversal pass: the handler fires at
each call node, and non-matching nodes are rebuilt from their transformed
children.  (Babel requeues a replacement node for further traversal; the
claims settled here concern sites that are left unchanged or transformed
atomically, for which the single pass is exact.) -/

mutual

/-- One traversal pass of `idxVisitor` over an expression, threading the
name-generation counter and collecting the uids pushed into scope. -/
def transformExpr (gen : Nat → String) : Expr → Nat →
    Except Err (Expr × Nat × List String)
  | .ident nm, c => .ok (.ident nm, c, [])
  | .nullLit, c => .ok (.nullLit, c, [])
  | .strLit s, c => .ok (.strLit s, c, [])
  | .member o p comp, c =>
      match transformExpr gen o c with
      | .error e => .error e
      | .ok (o1, c1, u1) =>
        match transformExpr gen p c1 with
        | .error e => .error e
        | .ok (p1, c2, u2) => .ok (.member o1 p1 comp, c2, u1 ++ u2)
  | .call f args, c =>
      if isIdxCall (.call f args) then
        callExpressionVisitor gen c (.call f args)
      else
        match transformExpr gen f c with
        | .error e => .error e
        | .ok (f1, c1, u1) =>
          match transformList gen args c1 with
          | .error e => .error e
          | .ok (args1, c2, u2) => .ok (.call f1 args1, c2, u1 ++ u2)
  | .assign op t v, c =>
      match transformExpr gen t c with
      | .error e => .error e
      | .ok (t1, c1, u1) =>
        match transformExpr gen v c1 with
        | .error e => .error e
        | .ok (v1, c2, u2) => .ok (.assign op t1 v1, c2, u1 ++ u2)
  | .binop op l r, c =>
      match transformExpr gen l c with
      | .error e => .error e
      | .ok (l1, c1, u1) =>
        match transformExpr gen r c1 with
        | .error e => .error e
        | .ok (r1, c2, u2) => .ok (.binop op l1 r1, c2, u1 ++ u2)
  | .cond t k a, c =>
      match transformExpr gen t c with
      | .error e => .error e
      | .ok (t1, c1, u1) =>
        match transformExpr gen k c1 with
        | .error e => .error e
        | .ok (k1, c2, u2) =>
          match transformExpr gen a c2 with
          | .error e => .error e
          | .ok (a1, c3, u3) => .ok (.cond t1 k1 a1, c3, u1 ++ u2 ++ u3)
  | .arrow params b, c =>
      match transformExpr gen b c with
      | .error e => .error e
      | .ok (b1, c1, u1) => .ok (.arrow params b1, c1, u1)
  | .objectPattern, c => .ok (.objectPattern, c, [])
  | .blockStmt, c => .ok (.blockStmt, c, [])

/-- Traversal of an expression list, left-to-right. -/
def transformList (gen : Nat → String) : List Expr → Nat →
    Except Err (List Expr × Nat × List String)
  | [], c => .ok ([], c, [])
  | e :: es, c =>
      match transformExpr gen e c with
      | .error err => .error err
      | .ok (e1, c1, u1) =>
        match transformList gen es c1 with
        | .error err => .error err
        | .ok (es1, c2, u2) => .ok (e1 :: es1, c2, u1 ++ u2)

end

mutual

/-- Whether an expression contains an eligible trigger call: a call whose
callee is the bare identifier `idx`. -/
def containsIdxCall : Expr → Bool
  | .ident _ => false
  | .nullLit => false
  | .strLit _ => false
  | .member o p _ => containsIdxCall o || containsIdxCall p
  | .call f args =>
      isIdxCall (.call f args) || containsIdxCall f
        || containsIdxCallList args
  | .assign _ t v => containsIdxCall t || containsIdxCall v
  | .binop _ l r => containsIdxCall l || containsIdxCall r
  | .cond t k a => containsIdxCall t || containsIdxCall k || containsIdxCall a
  | .arrow params b => containsIdxCallList params || containsIdxCall b
  | .objectPattern => false
  | .blockStmt => false

/-- List version of `containsIdxCall`. -/
def containsIdxCallList : List Expr → Bool
  | [] => false
  | e :: es => containsIdxCall e || containsIdxCallList es

end

mutual

/-- All identifier names occurring in an expression. -/
def identNames : Expr → List String
  | .ident nm => [nm]
  | .nullLit => []
  | .strLit _ => []
  | .member o p _ => identNames o ++ identNames p
  | .call f args => identNames f ++ identNamesList args
  | .assign _ t v => identNames t ++ identNames v
  | .binop _ l r => identNames l ++ identNames r
  | .cond t k a => identNames t ++ identNames k ++ identNames a
  | .arrow params b => identNamesList params ++ identNames b
  | .objectPattern => []
  | .blockStmt => []

/-- All identifier names occurring in an expression list. -/
def identNamesList : List Expr → List String
  | [] => []
  | e :: es => identNames e ++ identNamesList es

end

/-- A word character in the sense of the regex `\b` boundary (`[A-Za-z0-9_]`,
extended to Unicode alphanumerics, which is conservative for the ASCII
trigger name `idx`). -/
def isWordChar (ch : Char) : Bool := ch.isAlphanum || ch = '_'

/-- Whether the word `w` matches at the start of `s` with a word boundary on
its right. -/
def boundaryAt (w s : List Char) : Bool :=
  List.isPrefixOf w s &&
    (match s.drop w.length with
     | [] => true
     | ch :: _ => !isWordChar ch)

/-- Scan for a boundary-delimited occurrence of `w`; `prevWord` records
whether the character just before the current position is a word character
(the left `\b` boundary). -/
def wordOccursFrom (w : List Char) : Bool → List Char → Bool
  | _, [] => false
  | prevWord, ch :: rest =>
      (!prevWord && boundaryAt w (ch :: rest))
        || wordOccursFrom w (isWordChar ch) rest

/-- The regex test `/\bidx\b/.test(code)`, generalized to any word: some
occurrence of `w` in `s` delimited by word boundaries. -/
def wordOccurs (w s : String) : Bool := wordOccursFrom w.data false s.data

/-- A compilation unit as the `Program` visitor sees it: the raw source text
(`state.file.code`), whether the unit's own scope binds `idx`
(`path.scope.getOwnBinding('idx')`), and the program body. -/
structure Program where
  code : String
  ownBindingIdx : Bool
  body : List Expr
deriving Repr

/-- The printer/parser consistency assumption relating a unit's AST to its
source text: every identifier name of the body occurs in the code as a
boundary-delimited token.  (This is the external contract of the host
pipeline: the AST was parsed from `code`.) -/
def codeListsIdents (p : Program) : Bool :=
  (identNamesList p.body).all fun nm => wordOccurs nm p.code

/-- The `Program` visitor (lines 175–188): the fast pre-filter — trigger
bound in scope, or present as a token of the source text — gates one
traversal pass of `idxVisitor` over the unit. -/
def programVisitor (gen : Nat → String) (p : Program) :
    Except Err (Program × List String) :=
  if p.ownBindingIdx || wordOccurs "idx" p.code then
    match transformList gen p.body 0 with
    | .error e => .error e
    | .ok (body1, _, uids) => .ok ({ p with body := body1 }, uids)
  else .ok (p, [])

mutual

theorem transformExpr_id : ∀ (e : Expr) (gen : Nat → String) (c : Nat),
    containsIdxCall e = false → transformExpr gen e c = .ok (e, c, [])
  | .ident nm, gen, c, _ => rfl
  | .nullLit, gen, c, _ => rfl
  | .strLit s, gen, c, _ => rfl
  | .member o p comp, gen, c, h => by
      rw [containsIdxCall] at h
      simp only [Bool.or_eq_false_iff] at h
      simp [transformExpr, transformExpr_id o gen, transformExpr_id p gen,
        h.1, h.2]
  | .call f args, gen, c, h => by
      rw [containsIdxCall] at h
      simp only [Bool.or_eq_false_iff] at h
      simp [transformExpr, transformExpr_id f gen, transformList_id args gen,
        h.1.1, h.1.2, h.2]
  | .assign op t v, gen, c, h => by
      rw [containsIdxCall] at h
      simp only [Bool.or_eq_false_iff] at h
      simp [transformExpr, transformExpr_id t gen, transformExpr_id v gen,
        h.1, h.2]
  | .binop op l r, gen, c, h => by
      rw [containsIdxCall] at h
      simp only [Bool.or_eq_false_iff] at h
      simp [transformExpr, transformExpr_id l gen, transformExpr_id r gen,
        h.1, h.2]
  | .cond t k a, gen, c, h => by
      rw [containsIdxCall] at h
      simp only [Bool.or_eq_false_iff] at h
      simp [transformExpr, transformExpr_id t gen, transformExpr_id k gen,
        transformExpr_id a gen, h.1.1, h.1.2, h.2]
  | .arrow params b, gen, c, h => by
      rw [containsIdxCall] at h
      simp only [Bool.or_eq_false_iff] at h
      simp [transformExpr, transformExpr_id b gen, h.2]
  | .objectPattern, gen, c, _ => rfl
  | .blockStmt, gen, c, _ => rfl

theorem transformList_id : ∀ (es : List Expr) (gen : Nat → String) (c : Nat),
    containsIdxCallList es = false → transformList gen es c = .ok (es, c, [])
  | [], gen, c, _ => rfl
  | e :: es, gen, c, h => by
      rw [containsIdxCallList] at h
      simp only [Bool.or_eq_false_iff] at h
      simp [transformList, transformExpr_id e gen, transformList_id es gen,
        h.1, h.2]

end

mutual

theorem idx_mem_identNames : ∀ e : Expr,
    containsIdxCall e = true → "idx" ∈ identNames e
  | .member o p _, h => by
      rw [containsIdxCall] at h
      rw [identNames]
      simp only [Bool.or_eq_true] at h
      rcases h with h | h
      · exact List.mem_append_left _ (idx_mem_identNames o h)
      · exact List.mem_append_right _ (idx_mem_identNames p h)
  | .call f args, h => by
      rw [containsIdxCall] at h
      rw [identNames]
      simp only [Bool.or_eq_true] at h
      rcases h with (h | h) | h
      · cases f with
        | ident nm =>
            rw [isIdxCall] at h
            simp only [decide_eq_true_eq] at h
            subst h
            simp [identNames]
        | nullLit => simp [isIdxCall] at h
        | strLit s => simp [isIdxCall] at h
        | member o p comp => simp [isIdxCall] at h
        | call f2 args2 => simp [isIdxCall] at h
        | assign op t v => simp [isIdxCall] at h
        | binop op l r => simp [isIdxCall] at h
        | cond t k a => simp [isIdxCall] at h
        | arrow params b => simp [isIdxCall] at h
        | objectPattern => simp [isIdxCall] at h
        | blockStmt => simp [isIdxCall] at h
      · exact List.mem_append_left _ (idx_mem_identNames f h)
      · exact List.mem_append_right _ (idx_mem_identNamesList args h)
  | .assign _ t v, h => by
      rw [containsIdxCall] at h
      rw [identNames]
      simp only [Bool.or_eq_true] at h
      rcases h with h | h
      · exact List.mem_append_left _ (idx_mem_identNames t h)
      · exact List.mem_append_right _ (idx_mem_identNames v h)
  | .binop _ l r, h => by
      rw [containsIdxCall] at h
      rw [identNames]
      simp only [Bool.or_eq_true] at h
      rcases h with h | h
      · exact List.mem_append_left _ (idx_mem_identNames l h)
      · exact List.mem_append_right _ (idx_mem_identNames r h)
  | .cond t k a, h => by
      rw [containsIdxCall] at h
      rw [identNames]
      simp only [Bool.or_eq_true] at h
      rcases h with (h | h) | h
      · exact List.mem_append_left _ (List.mem_append_left _
          (idx_mem_identNames t h))
      · exact List.mem_append_left _ (List.mem_append_right _
          (idx_mem_identNames k h))
      · exact List.mem_append_right _ (idx_mem_identNames a h)
  | .arrow params b, h => by
      rw [containsIdxCall] at h
      rw [identNames]
      simp only [Bool.or_eq_true] at h
      rcases h with h | h
      · exact List.mem_append_left _ (idx_mem_identNamesList params h)
      · exact List.mem_append_right _ (idx_mem_identNames b h)

theorem idx_mem_identNamesList : ∀ es : List Expr,
    containsIdxCallList es = true → "idx" ∈ identNamesList es
  | e :: es, h => by
      rw [containsIdxCallList] at h
      rw [identNamesList]
      simp only [Bool.or_eq_true] at h
      rcases h with h | h
      · exact List.mem_append_left _ (idx_mem_identNames e h)
      · exact List.mem_append_right _ (idx_mem_identNamesList es h)

end

/-! ## Claim theorems -/

/-- A concrete injective fresh-name source used by the witnesses: `n` maps to
a run of `n + 1` letters `r`. -/
def rGen (n : Nat) : String := String.mk (List.replicate (n + 1) 'r')

theorem rGen_inj : Function.Injective rGen := by
  intro a b h
  have hlen : (rGen a).length = (rGen b).length := by rw [h]
  simpa [rGen, String.length] using hlen

/-- C1: for a trigger call with base `a` and lambda `x => x.b.c`, the built
replacement expression is structurally
`(t1 = a) != null ? ((t2 = t1.b) != null ? t2.c : t2) : t1` for fresh
(distinct) temporaries `t1`, `t2`. -/
theorem claim1_two_link_chain_shape (a : Expr) (gen : Nat → String) (c : Nat)
    (hfresh : gen c ≠ gen (c + 1)) :
    ∃ t1 t2 : String, t1 ≠ t2 ∧
      (constructTernary a
        (.member (.member (.ident "x") (.ident "b") false)
          (.ident "c") false) gen c).expression =
      .cond (.binop "!=" (.assign "=" (.ident t1) a) .nullLit)
        (.cond (.binop "!="
            (.assign "=" (.ident t2) (.member (.ident t1) (.ident "b") false))
            .nullLit)
          (.member (.ident t2) (.ident "c") false)
          (.ident t2))
        (.ident t1) :=
  ⟨gen c, gen (c + 1), hfresh, rfl⟩

/-- Witness for C1 at base `a`, generator `rGen`, counter `0`. -/
theorem claim1_witness :
    rGen 0 ≠ rGen 1 ∧
    ∃ t1 t2 : String, t1 ≠ t2 ∧
      (constructTernary (.ident "a")
        (.member (.member (.ident "x") (.ident "b") false)
          (.ident "c") false) rGen 0).expression =
      .cond (.binop "!=" (.assign "=" (.ident t1) (.ident "a")) .nullLit)
        (.cond (.binop "!="
            (.assign "=" (.ident t2) (.member (.ident t1) (.ident "b") false))
            .nullLit)
          (.member (.ident t2) (.ident "c") false)
          (.ident t2))
        (.ident t1) :=
  ⟨by decide, claim1_two_link_chain_shape (.ident "a") rGen 0 (by decide)⟩

/-- C9: a zero-link chain `idx(a, x => x)` validates successfully, the call
is replaced by the base expression itself with no wrapping conditional, and
no temporary binding is pushed. -/
theorem claim9_zero_link_chain (a : Expr) (gen : Nat → String) (c : Nat) :
    checkIdxArguments
      (.call (.ident "idx") [a, .arrow [.ident "x"] (.ident "x")]) = .ok ()
    ∧ callExpressionVisitor gen c
      (.call (.ident "idx") [a, .arrow [.ident "x"] (.ident "x")]) =
      .ok (a, c, []) :=
  ⟨rfl, rfl⟩

/-- C6: when validation fails at an eligible call site, the visitor surfaces
exactly that error and performs no mutation: no replacement expression and no
temporary binding is ever produced (in the source, `checkIdxArguments`
throws before `constructTernary`, `path.replaceWith`, or `scope.push` run). -/
theorem claim6_no_mutation_on_error (gen : Nat → String) (c : Nat)
    (node : Expr) (err : Err) (hidx : isIdxCall node = true)
    (hval : checkIdxArguments node = .error err) :
    callExpressionVisitor gen c node = .error err := by
  simp [callExpressionVisitor, hidx, hval]

/-- Witness for C6 at the one-argument call `idx(a)`. -/
theorem claim6_witness :
    isIdxCall (.call (.ident "idx") [.ident "a"]) = true
    ∧ checkIdxArguments (.call (.ident "idx") [.ident "a"]) =
        .error .arity
    ∧ callExpressionVisitor rGen 0 (.call (.ident "idx") [.ident "a"]) =
        .error .arity :=
  ⟨by decide, rfl,
    claim6_no_mutation_on_error rGen 0 _ .arity (by decide) rfl⟩

/-- C7: every guard the builder emits tests `(uid = previous) != null` with
the loose `!=` operator against a null literal — the whole consequent spine
of the built expression, one level per chain link, consists of such guards
and never uses a strict inequality. -/
theorem claim7_loose_null_guards (gen : Nat → String) (base body : Expr)
    (c : Nat) :
    looseGuardSpine (chainLength body)
      ((constructTernary base body gen c).expression) = true := by
  rw [constructTernary_char]
  simp only [charState]
  rw [chainLength_eq_links_length]
  exact looseGuardSpine_buildExpr gen (links body) base c

/-- C5: the validator checks arity, then lambda shape (not a lambda, block
body, parameter count), then parameter match, in that fixed order, raising
the error of the first violated condition and returning normally when all
hold.  Each conjunct characterizes the outcome given only that the earlier
conditions hold and the stated one fails, so for a call violating several
conditions the earliest one's error is raised. -/
theorem claim5_validator_order :
    (∀ (f : Expr) (args : List Expr), args.length ≠ 2 →
      checkIdxArguments (.call f args) = .error .arity)
    ∧ (∀ (f a b : Expr), isArrowFunctionExpression b = false →
      checkIdxArguments (.call f [a, b]) = .error .notArrow)
    ∧ (∀ (f a : Expr) (params : List Expr) (body : Expr),
      isExpression body = false →
      checkIdxArguments (.call f [a, .arrow params body]) = .error .blockBody)
    ∧ (∀ (f a : Expr) (params : List Expr) (body : Expr),
      isExpression body = true → params.length ≠ 1 →
      checkIdxArguments (.call f [a, .arrow params body]) =
        .error .paramCount)
    ∧ (∀ (f a p body : Expr), isExpression body = true →
      isIdentifier p = false →
      checkIdxArguments (.call f [a, .arrow [p] body]) =
        .error .paramMismatch)
    ∧ (∀ (f a : Expr) (nm : String) (body : Expr), isExpression body = true →
      isIdentifier (getExpressionChainBase body) = false →
      checkIdxArguments (.call f [a, .arrow [.ident nm] body]) =
        .error .paramMismatch)
    ∧ (∀ (f a : Expr) (nm bn : String) (body : Expr),
      isExpression body = true → getExpressionChainBase body = .ident bn →
      nm ≠ bn →
      checkIdxArguments (.call f [a, .arrow [.ident nm] body]) =
        .error .paramMismatch)
    ∧ (∀ (f a : Expr) (nm : String) (body : Expr), isExpression body = true →
      getExpressionChainBase body = .ident nm →
      checkIdxArguments (.call f [a, .arrow [.ident nm] body]) = .ok ()) := by
  refine ⟨?_, ?_, ?_, ?_, ?_, ?_, ?_, ?_⟩
  · intro f args h
    simp [checkIdxArguments, h]
  · intro f a b hb
    cases b <;> simp_all [checkIdxArguments, isArrowFunctionExpression]
  · intro f a params body hbody
    simp [checkIdxArguments, hbody]
  · intro f a params body hbody hlen
    simp [checkIdxArguments, hbody, hlen]
  · intro f a p body hbody hp
    cases hb : getExpressionChainBase body <;>
      cases p <;> simp_all [checkIdxArguments, isIdentifier]
  · intro f a nm body hbody hb
    cases hbase : getExpressionChainBase body <;>
      simp_all [checkIdxArguments, isIdentifier]
  · intro f a nm bn body hbody hb hne
    simp [checkIdxArguments, hbody, hb, hne]
  · intro f a nm body hbody hb
    simp [checkIdxArguments, hbody, hb]

/-- Witness for C5: concrete calls violating each condition first.  The call
`idx(a)` violating arity (and everything else) raises `arity`; the call
`idx(a, null, b)` with a non-lambda second argument still raises `arity`
because arity is checked first; `idx(a, y => x.b)` raises the mismatch. -/
theorem claim5_witness :
    ([Expr.ident "a"].length ≠ 2
      ∧ checkIdxArguments (.call (.ident "idx") [.ident "a"]) =
          .error .arity)
    ∧ (isArrowFunctionExpression .nullLit = false
      ∧ checkIdxArguments (.call (.ident "idx") [.ident "a", .nullLit]) =
          .error .notArrow)
    ∧ (isExpression .blockStmt = false
      ∧ checkIdxArguments
          (.call (.ident "idx") [.ident "a", .arrow [.ident "x"] .blockStmt])
          = .error .blockBody)
    ∧ (isExpression (Expr.ident "x") = true ∧ ("y" : String) ≠ "x"
      ∧ checkIdxArguments
          (.call (.ident "idx")
            [.ident "a",
             .arrow [.ident "y"] (.member (.ident "x") (.ident "b") false)])
          = .error .paramMismatch)
    ∧ (isExpression (Expr.member (.ident "x") (.ident "b") false) = true
      ∧ checkIdxArguments
          (.call (.ident "idx")
            [.ident "a",
             .arrow [.ident "x"] (.member (.ident "x") (.ident "b") false)])
          = .ok ()) :=
  ⟨⟨by decide, claim5_validator_order.1 (.ident "idx") [.ident "a"]
      (by decide)⟩,
   ⟨by decide, claim5_validator_order.2.1 (.ident "idx") (.ident "a") .nullLit
      (by decide)⟩,
   ⟨by decide, claim5_validator_order.2.2.1 (.ident "idx") (.ident "a")
      [.ident "x"] .blockStmt (by decide)⟩,
   ⟨by decide, by decide,
     claim5_validator_order.2.2.2.2.2.2.1 (.ident "idx") (.ident "a")
      "y" "x" (.member (.ident "x") (.ident "b") false) (by decide) rfl
      (by decide)⟩,
   ⟨by decide, claim5_validator_order.2.2.2.2.2.2.2 (.ident "idx")
      (.ident "a") "x" (.member (.ident "x") (.ident "b") false) (by decide)
      rfl⟩⟩

/-- C10: when the earlier arity and shape checks pass, a non-identifier
parameter (for example a destructuring pattern), or a body whose chain root
is not a bare identifier, raises the parameter-mismatch error — not a shape
error. -/
theorem claim10_mismatch_not_shape :
    (∀ (f a p body : Expr), isExpression body = true →
      isIdentifier p = false →
      checkIdxArguments (.call f [a, .arrow [p] body]) =
        .error .paramMismatch)
    ∧ (∀ (f a : Expr) (nm : String) (body : Expr), isExpression body = true →
      isIdentifier (getExpressionChainBase body) = false →
      checkIdxArguments (.call f [a, .arrow [.ident nm] body]) =
        .error .paramMismatch) := by
  constructor
  · intro f a p body hbody hp
    cases hb : getExpressionChainBase body <;>
      cases p <;> simp_all [checkIdxArguments, isIdentifier]
  · intro f a nm body hbody hb
    cases hbase : getExpressionChainBase body <;>
      simp_all [checkIdxArguments, isIdentifier]

/-- Witness for C10: a destructuring parameter `idx(a, {b} => x.b)` and a
non-identifier chain root `idx(a, x => null.b)` both raise the mismatch
error. -/
theorem claim10_witness :
    (isExpression (Expr.member (.ident "x") (.ident "b") false) = true
      ∧ isIdentifier Expr.objectPattern = false
      ∧ checkIdxArguments
          (.call (.ident "idx")
            [.ident "a",
             .arrow [.objectPattern]
               (.member (.ident "x") (.ident "b") false)])
          = .error .paramMismatch)
    ∧ (isExpression (Expr.member .nullLit (.ident "b") false) = true
      ∧ isIdentifier
          (getExpressionChainBase (.member .nullLit (.ident "b") false)) =
          false
      ∧ checkIdxArguments
          (.call (.ident "idx")
            [.ident "a",
             .arrow [.ident "x"] (.member .nullLit (.ident "b") false)])
          = .error .paramMismatch) :=
  ⟨⟨by decide, by decide,
    claim10_mismatch_not_shape.1 (.ident "idx") (.ident "a") .objectPattern
      (.member (.ident "x") (.ident "b") false) (by decide) (by decide)⟩,
   ⟨by decide, by decide,
    claim10_mismatch_not_shape.2 (.ident "idx") (.ident "a") "x"
      (.member .nullLit (.ident "b") false) (by decide) (by decide)⟩⟩

/-- Counterexample to C2 as stated: for the one-link chain
`idx(a, x => x.b)` the single minted temporary occurs three times in the
built expression — as the assignment target, as the subject of the member
access `t1.b`, and as the fallback read — not twice. -/
theorem claim2_counterexample :
    (constructTernary (.ident "a") (.member (.ident "x") (.ident "b") false)
      rGen 0).uids = ["r"]
    ∧ countIdent "r"
        (constructTernary (.ident "a")
          (.member (.ident "x") (.ident "b") false) rGen 0).expression = 3
    ∧ countIdent "r"
        (constructTernary (.ident "a")
          (.member (.ident "x") (.ident "b") false) rGen 0).expression ≠ 2 :=
  ⟨by decide, by decide, by decide⟩

/-- C2 as amended: for a chain of length `N` the built expression contains
exactly `N` conditional guards and exactly `N` minted temporaries, and each
temporary occurs exactly **three** times: once as an assignment target, once
as the subject of its link's value expression (the read that feeds the next
guard), and once as the fallback read.  The freshness hypotheses say the
generator is injective and its names do not occur in the base or in the
chain's payloads (the generator's external contract), and the conditional
count assumes the user's base and payload expressions contain no conditional
of their own. -/
theorem claim2_amended_three_occurrences (gen : Nat → String)
    (base body : Expr) (c : Nat) (hinj : Function.Injective gen)
    (hbase : ∀ n, countIdent (gen n) base = 0)
    (hpay : ∀ (n : Nat), ∀ l ∈ links body, countIdentLink (gen n) l = 0)
    (hcondb : condCount base = 0)
    (hcondp : ∀ l ∈ links body, condCountLink l = 0) :
    condCount (constructTernary base body gen c).expression =
      chainLength body
    ∧ (constructTernary base body gen c).uids.length = chainLength body
    ∧ ∀ u ∈ (constructTernary base body gen c).uids,
        countIdent u (constructTernary base body gen c).expression = 3 := by
  rw [constructTernary_char]
  simp only [charState]
  have hzero : condCountLinks (links body) = 0 := by
    rw [condCountLinks]
    apply List.sum_eq_zero
    intro x hx
    rcases List.mem_map.mp hx with ⟨l, hl, rfl⟩
    exact hcondp l hl
  refine ⟨?_, ?_, ?_⟩
  · rw [condCount_buildExpr, hcondb, hzero, chainLength_eq_links_length]
    omega
  · simp [genNames, chainLength_eq_links_length]
  · intro u hu
    rcases List.mem_map.mp hu with ⟨i, hi, rfl⟩
    have hilt : i < (links body).length := List.mem_range.mp hi
    rw [countIdent_buildExpr, hbase (c + i)]
    rw [identWeight_eq_three gen hinj (links body) c (c + i)
      (Nat.le_add_right c i) (by omega) (fun l hl => hpay (c + i) l hl)]

/-- Witness for the amended C2 at `idx("a", x => x["b"])` with generator
`rGen` (base and payload are string literals, so the freshness hypotheses
hold for every generated name). -/
theorem claim2_witness :
    Function.Injective rGen
    ∧ (∀ n, countIdent (rGen n) (.strLit "a") = 0)
    ∧ (∀ (n : Nat), ∀ l ∈ links (.member (.ident "x") (.strLit "b") true),
        countIdentLink (rGen n) l = 0)
    ∧ condCount (.strLit "a") = 0
    ∧ (∀ l ∈ links (.member (.ident "x") (.strLit "b") true),
        condCountLink l = 0)
    ∧ (condCount (constructTernary (.strLit "a")
        (.member (.ident "x") (.strLit "b") true) rGen 0).expression =
        chainLength (.member (.ident "x") (.strLit "b") true)
      ∧ (constructTernary (.strLit "a")
          (.member (.ident "x") (.strLit "b") true) rGen 0).uids.length =
          chainLength (.member (.ident "x") (.strLit "b") true)
      ∧ ∀ u ∈ (constructTernary (.strLit "a")
          (.member (.ident "x") (.strLit "b") true) rGen 0).uids,
          countIdent u (constructTernary (.strLit "a")
            (.member (.ident "x") (.strLit "b") true) rGen 0).expression
            = 3) := by
  have hpay : ∀ (n : Nat),
      ∀ l ∈ links (.member (.ident "x") (.strLit "b") true),
      countIdentLink (rGen n) l = 0 := by
    intro n l hl
    simp only [links] at hl
    simp at hl
    subst hl
    rfl
  have hcondp : ∀ l ∈ links (.member (.ident "x") (.strLit "b") true),
      condCountLink l = 0 := by
    intro l hl
    simp only [links] at hl
    simp at hl
    subst hl
    rfl
  exact ⟨rGen_inj, fun n => rfl, hpay, rfl, hcondp,
    claim2_amended_three_occurrences rGen (.strLit "a")
      (.member (.ident "x") (.strLit "b") true) 0 rGen_inj (fun n => rfl)
      hpay rfl hcondp⟩

/-- C4: structurally, the base expression occurs exactly once in the built
expression, as the value of the first guard's assignment (conjuncts 1–2),
and more generally every original-chain subterm occurs in the output exactly
as often as in the base plus the link payloads — nothing is duplicated
(conjunct 4).  The freshness side conditions (minted names do not occur in
the inspected subterm, which is not itself a null literal) stand in for
Babel's node identity.  Dynamically (conjunct 3), evaluation runs the base
first, exactly once — its trace is emitted once, as a prefix — followed by
the links left-to-right, each at most once, stopping at the first nullish
value, as `runLinksE` specifies. -/
theorem claim4_single_evaluation (gen : Nat → String) (base body : Expr)
    (c : Nat) (σ : Env)
    (hfresh : ∀ n, countIdent (gen n) base = 0)
    (hnull : base ≠ Expr.nullLit)
    (hpay : ∀ l ∈ links body, countSubLink base l = 0) :
    countSub base (constructTernary base body gen c).expression = 1
    ∧ (links body ≠ [] → ∃ inner,
        (constructTernary base body gen c).expression =
          .cond (.binop "!=" (.assign "=" (.ident (gen c)) base) .nullLit)
            inner (.ident (gen c)))
    ∧ eval σ (constructTernary base body gen c).expression =
        (match eval σ base with
         | none => none
         | some (vb, σ1, trB) =>
           match runLinksE gen σ1 vb c (links body) with
           | none => none
           | some (v, σ2, tr) => some (v, σ2, trB ++ tr))
    ∧ ∀ x : Expr, (∀ n, countIdent (gen n) x = 0) → x ≠ Expr.nullLit →
        countSub x (constructTernary base body gen c).expression =
          countSub x base + countSubLinks x (links body) := by
  rw [constructTernary_char]
  simp only [charState]
  refine ⟨?_, ?_, ?_, ?_⟩
  · rw [countSub_buildExpr gen base hfresh hnull (links body) base c,
      countSub_self]
    have hz : countSubLinks base (links body) = 0 := by
      rw [countSubLinks]
      apply List.sum_eq_zero
      intro y hy
      rcases List.mem_map.mp hy with ⟨l, hl, rfl⟩
      exact hpay l hl
    omega
  · intro hne
    cases hls : links body with
    | nil => exact absurd hls hne
    | cons l ls =>
        exact ⟨buildExpr gen (l.val (gen c)) (c + 1) ls, rfl⟩
  · exact eval_buildExpr gen (links body) base c σ
  · intro x hx hn
    exact countSub_buildExpr gen x hx hn (links body) base c

/-- Witness for C4 at `idx("a", x => x["b"])` with generator `rGen` and the
empty environment. -/
theorem claim4_witness :
    (∀ n, countIdent (rGen n) (.strLit "a") = 0)
    ∧ (Expr.strLit "a") ≠ Expr.nullLit
    ∧ (∀ l ∈ links (.member (.ident "x") (.strLit "b") true),
        countSubLink (.strLit "a") l = 0)
    ∧ (countSub (.strLit "a") (constructTernary (.strLit "a")
        (.member (.ident "x") (.strLit "b") true) rGen 0).expression = 1
      ∧ (links (.member (.ident "x") (.strLit "b") true) ≠ [] → ∃ inner,
          (constructTernary (.strLit "a")
            (.member (.ident "x") (.strLit "b") true) rGen 0).expression =
            .cond (.binop "!="
                (.assign "=" (.ident (rGen 0)) (.strLit "a")) .nullLit)
              inner (.ident (rGen 0)))
      ∧ eval [] (constructTernary (.strLit "a")
          (.member (.ident "x") (.strLit "b") true) rGen 0).expression =
          (match eval [] (.strLit "a") with
           | none => none
           | some (vb, σ1, trB) =>
             match runLinksE rGen σ1 vb 0
                 (links (.member (.ident "x") (.strLit "b") true)) with
             | none => none
             | some (v, σ2, tr) => some (v, σ2, trB ++ tr))
      ∧ ∀ x : Expr, (∀ n, countIdent (rGen n) x = 0) → x ≠ Expr.nullLit →
          countSub x (constructTernary (.strLit "a")
            (.member (.ident "x") (.strLit "b") true) rGen 0).expression =
            countSub x (.strLit "a")
              + countSubLinks x
                  (links (.member (.ident "x") (.strLit "b") true))) := by
  have hpay : ∀ l ∈ links (.member (.ident "x") (.strLit "b") true),
      countSubLink (.strLit "a") l = 0 := by
    intro l hl
    simp only [links] at hl
    simp at hl
    subst hl
    decide
  exact ⟨fun n => rfl, by decide, hpay,
    claim4_single_evaluation rGen (.strLit "a")
      (.member (.ident "x") (.strLit "b") true) 0 [] (fun n => rfl)
      (by decide) hpay⟩

/-- A unit whose source text contains the token `idx` only as a member
property name: the pre-filter admits it although it has no eligible call. -/
def unitNoIdxCall : Program :=
  { code := "a.idx"
    ownBindingIdx := false
    body := [.member (.ident "a") (.ident "idx") false] }

/-- A unit with one eligible trigger call `idx(a, x => x.b)`. -/
def unitWithIdxCall : Program :=
  { code := "idx(a, x => x.b)"
    ownBindingIdx := false
    body := [.call (.ident "idx")
      [.ident "a", .arrow [.ident "x"]
        (.member (.ident "x") (.ident "b") false)]] }

/-- C8: (1) a unit containing no call whose callee is the bare identifier
`idx` is transformed to itself — every node returned as-is and no binding
pushed — whether or not the pre-filter admits it; (2) the pre-filter can
admit a unit with no eligible call (it is an over-approximation): witness a
unit whose code contains the token `idx` only as a member property; (3) the
pre-filter never skips a unit containing an eligible call, given the
parser/printer contract that every identifier of the body occurs as a
boundary-delimited token of the source text. -/
theorem claim8_fixed_point_and_prefilter :
    (∀ (gen : Nat → String) (p : Program),
      containsIdxCallList p.body = false →
      programVisitor gen p = .ok (p, []))
    ∧ (∃ p : Program, codeListsIdents p = true
        ∧ (p.ownBindingIdx || wordOccurs "idx" p.code) = true
        ∧ containsIdxCallList p.body = false)
    ∧ (∀ p : Program, codeListsIdents p = true →
        containsIdxCallList p.body = true →
        (p.ownBindingIdx || wordOccurs "idx" p.code) = true) := by
  refine ⟨?_, ?_, ?_⟩
  · intro gen p h
    by_cases hf : (p.ownBindingIdx || wordOccurs "idx" p.code) = true
    · simp [programVisitor, hf, transformList_id p.body gen 0 h]
    · simp [programVisitor, hf]
  · exact ⟨unitNoIdxCall, by decide, by decide, by decide⟩
  · intro p hf hc
    have hmem : "idx" ∈ identNamesList p.body :=
      idx_mem_identNamesList p.body hc
    have hword : wordOccurs "idx" p.code = true := by
      have hall := List.all_eq_true.mp hf
      simpa using hall "idx" hmem
    simp [hword]

/-- Witness for C8: the fixed-point conjunct applied to a concrete unit with
no eligible call, and the never-skip conjunct applied to a concrete unit
with one. -/
theorem claim8_witness :
    (containsIdxCallList unitNoIdxCall.body = false
      ∧ programVisitor rGen unitNoIdxCall = .ok (unitNoIdxCall, []))
    ∧ (codeListsIdents unitWithIdxCall = true
      ∧ containsIdxCallList unitWithIdxCall.body = true
      ∧ (unitWithIdxCall.ownBindingIdx
          || wordOccurs "idx" unitWithIdxCall.code) = true) :=
  ⟨⟨by decide,
    claim8_fixed_point_and_prefilter.1 rGen unitNoIdxCall (by decide)⟩,
   ⟨by decide, by decide,
    claim8_fixed_point_and_prefilter.2.2 unitWithIdxCall
      (by decide) (by decide)⟩⟩

/-- C3: for `idx(a, x => x.b())` the property access is guarded first and
the call is then appended as the next link with the guarded value (the
temporary `t2` holding `t1.b`) as callee: structurally the built expression
is `(t1 = a) != null ? ((t2 = t1.b) != null ? t2() : t2) : t1` (conjunct 2,
with distinct fresh names by conjunct 1), and it is semantically equivalent
— same resulting value, including errors — to the claim's rendering
`(t1 = a) != null ? (t1.b != null ? (t2 = t1.b)() : t1.b) : t1`
(conjunct 3, for every environment). -/
theorem claim3_property_then_call (gen : Nat → String) (c : Nat)
    (hfresh : gen c ≠ gen (c + 1)) :
    gen c ≠ gen (c + 1)
    ∧ (constructTernary (.ident "a")
        (.call (.member (.ident "x") (.ident "b") false) []) gen
        c).expression
      = .cond (.binop "!=" (.assign "=" (.ident (gen c)) (.ident "a"))
            .nullLit)
          (.cond (.binop "!=" (.assign "=" (.ident (gen (c + 1)))
              (.member (.ident (gen c)) (.ident "b") false)) .nullLit)
            (.call (.ident (gen (c + 1))) [])
            (.ident (gen (c + 1))))
          (.ident (gen c))
    ∧ ∀ σ : Env,
        Option.map (fun r => r.1)
          (eval σ (constructTernary (.ident "a")
            (.call (.member (.ident "x") (.ident "b") false) []) gen
            c).expression)
        = Option.map (fun r => r.1)
          (eval σ (.cond (.binop "!="
              (.assign "=" (.ident (gen c)) (.ident "a")) .nullLit)
            (.cond (.binop "!="
                (.member (.ident (gen c)) (.ident "b") false) .nullLit)
              (.call (.assign "=" (.ident (gen (c + 1)))
                (.member (.ident (gen c)) (.ident "b") false)) [])
              (.member (.ident (gen c)) (.ident "b") false))
            (.ident (gen c)))) := by
  refine ⟨hfresh, rfl, ?_⟩
  intro σ
  cases hv : lookup σ "a"
  case vobj fields =>
    cases hw : getField fields "b" <;>
      simp [eval, hv, hw, isNullish, memberLookup, truthy, looseEq,
        lookup_update_self, evalList]
  all_goals
    simp [eval, hv, isNullish, memberLookup, truthy, looseEq,
      lookup_update_self, evalList]

/-- Witness for C3 at generator `rGen` and counter `0`. -/
theorem claim3_witness :
    rGen 0 ≠ rGen 1
    ∧ (rGen 0 ≠ rGen 1
      ∧ (constructTernary (.ident "a")
          (.call (.member (.ident "x") (.ident "b") false) []) rGen
          0).expression
        = .cond (.binop "!=" (.assign "=" (.ident (rGen 0)) (.ident "a"))
              .nullLit)
            (.cond (.binop "!=" (.assign "=" (.ident (rGen 1))
                (.member (.ident (rGen 0)) (.ident "b") false)) .nullLit)
              (.call (.ident (rGen 1)) [])
              (.ident (rGen 1)))
            (.ident (rGen 0))
      ∧ ∀ σ : Env,
          Option.map (fun r => r.1)
            (eval σ (constructTernary (.ident "a")
              (.call (.member (.ident "x") (.ident "b") false) []) rGen
              0).expression)
          = Option.map (fun r => r.1)
            (eval σ (.cond (.binop "!="
                (.assign "=" (.ident (rGen 0)) (.ident "a")) .nullLit)
              (.cond (.binop "!="
                  (.member (.ident (rGen 0)) (.ident "b") false) .nullLit)
                (.call (.assign "=" (.ident (rGen 1))
                  (.member (.ident (rGen 0)) (.ident "b") false)) [])
                (.member (.ident (rGen 0)) (.ident "b") false))
              (.ident (rGen 0))))) :=
  ⟨by decide, claim3_property_then_call rGen 0 (by decide)⟩

end Idx
